import Mathlib

/-!
Verification of the field-normalization core of `dataset/data-processing.py`
(market-listing cleaning pipeline).

The Python source is shallowly embedded below.  Python/JSON values that flow
through the parsers are modelled by the inductive type `PyVal`; fallible
Python code is modelled in `Except PyErr`, where an uncaught Python exception
corresponds to an `Except.error` result and each `try/except` clause of the
source is modelled by an explicit filter on the error kind.  Strings are
processed as `List Char` (Python operates on code points, as does Lean's
`List Char` view of a `String`).

Known modelling boundaries (each noted at the relevant definition):
* `pd.isna` truthiness on list values raises in the deployed pandas/numpy
  stack; the embedding maps container-valued time entries to an error.
* Unicode-only behaviour (non-ASCII digits/whitespace/case) is modelled
  ASCII-only, and `json.loads` is modelled without the nonstandard
  `NaN`/`Infinity` extensions.
* Python float repr is modelled by a simple decimal rendering; only the
  shape of the rendering (sign, digits, one dot) is relevant downstream.
-/

deriving instance DecidableEq for Except

set_option maxRecDepth 40000

namespace DataProc

/-- Kinds of Python exceptions that can arise in the embedded code. -/
inductive PyErr where
  | jsonDecodeError
  | typeError
  | valueError
  | keyError
  | attributeError
deriving DecidableEq

/-- Python values as they appear after `json.loads` (plus `null`, which also
stands for `None`/`NaN` inputs detected by `pd.isna`). -/
inductive PyVal where
  | null : PyVal
  | bool : Bool → PyVal
  | num : Rat → PyVal
  | str : String → PyVal
  | list : List PyVal → PyVal
  | dict : List (String × PyVal) → PyVal

/-- The double-quote character. -/
def dq : Char := Char.ofNat 34

/-- The single-quote character. -/
def sq : Char := Char.ofNat 39

/-- Whitespace characters recognised by Python's `str.strip()` (ASCII part;
Unicode spaces are outside the model). -/
def isPySpace (c : Char) : Bool :=
  c = ' ' || c = Char.ofNat 9 || c = Char.ofNat 10 || c = Char.ofNat 13 ||
  c = Char.ofNat 11 || c = Char.ofNat 12

/-- Python `str.strip()` on code points. -/
def pyStrip (cs : List Char) : List Char :=
  ((cs.dropWhile isPySpace).reverse.dropWhile isPySpace).reverse

/-- Python substring containment `needle in hay`. -/
def containsSub (needle : List Char) : List Char → Bool
  | [] => needle.isEmpty
  | c :: rest => needle.isPrefixOf (c :: rest) || containsSub needle rest

/-- Decimal digit value of a character. -/
def digitVal (c : Char) : Nat := c.toNat - 48

/-- Character for a decimal digit. -/
def digitChar (n : Nat) : Char := Char.ofNat (48 + n)

/-- Decimal rendering of a natural number (explicit for up to three digits,
which covers every number formatted by the time parser). -/
def natChars (n : Nat) : List Char :=
  if n < 10 then [digitChar n]
  else if n < 100 then [digitChar (n / 10), digitChar (n % 10)]
  else if n < 1000 then [digitChar (n / 100), digitChar (n / 10 % 10), digitChar (n % 10)]
  else Nat.toDigits 10 n

/-- Python `f"{n:02d}"` formatting. -/
def pad2 (n : Nat) : List Char :=
  if n < 10 then '0' :: natChars n else natChars n

/-- Decimal rendering of an integer. -/
def intChars (i : Int) : List Char :=
  if i < 0 then '-' :: natChars i.natAbs else natChars i.natAbs

/-- Rendering of a Python number (`str(x)`).  Integers render exactly;
float rendering is approximated by integer part plus six fractional digits
(the shortest-round-trip repr of CPython is outside the model; downstream
code only scans the rendering for a digits-dash-digits pattern, which no
rendering of sign, digits and a dot can contain). -/
def numStr (q : Rat) : List Char :=
  if q.den = 1 then intChars q.num
  else
    (if q < 0 then ['-'] else []) ++
      natChars (q.num.natAbs / q.den) ++
      '.' :: natChars ((q.num.natAbs % q.den) * 1000000 / q.den)

/-! ### JSON parsing (model of Python `json.loads` on string input)

A fuel-indexed recursive-descent parser.  The fuel is sized from the input
so that it cannot run out on inputs of nesting depth bounded by their
length; every nested call is preceded by at least one consumed character. -/

/-- Hex digit value, if any. -/
def hexVal (c : Char) : Option Nat :=
  if '0' ≤ c ∧ c ≤ '9' then some (c.toNat - 48)
  else if 'a' ≤ c ∧ c ≤ 'f' then some (c.toNat - 87)
  else if 'A' ≤ c ∧ c ≤ 'F' then some (c.toNat - 55)
  else none

/-- JSON whitespace (exactly the four characters accepted by Python's json). -/
def isJsonWs (c : Char) : Bool :=
  c = ' ' || c = Char.ofNat 9 || c = Char.ofNat 10 || c = Char.ofNat 13

/-- Decode one escape sequence after a backslash: the escape letter, the
input after it; returns the decoded character and the remaining input.
(Lone surrogate escapes map through `Char.ofNat`, outside the model.) -/
def escChar (e : Char) (rest : List Char) : Option (Char × List Char) :=
  if e = dq then some (dq, rest)
  else if e = '\\' then some ('\\', rest)
  else if e = '/' then some ('/', rest)
  else if e = 'b' then some (Char.ofNat 8, rest)
  else if e = 'f' then some (Char.ofNat 12, rest)
  else if e = 'n' then some (Char.ofNat 10, rest)
  else if e = 'r' then some (Char.ofNat 13, rest)
  else if e = 't' then some (Char.ofNat 9, rest)
  else if e = 'u' then
    match rest with
    | h1 :: h2 :: h3 :: h4 :: rest2 =>
      match hexVal h1, hexVal h2, hexVal h3, hexVal h4 with
      | some a, some b, some c, some d =>
        some (Char.ofNat (((a * 16 + b) * 16 + c) * 16 + d), rest2)
      | _, _, _, _ => none
    | _ => none
  else none

/-- Parse the body of a JSON string after the opening quote; returns the
content and the remaining input after the closing quote.  Strict mode:
unescaped control characters are rejected.  Fueled for totality; the fuel
is sized by callers so that it cannot run out. -/
def parseJStrF : Nat → List Char → Option (List Char × List Char)
  | 0, _ => none
  | _, [] => none
  | fuel + 1, c :: rest =>
    if c = dq then some ([], rest)
    else if c = '\\' then
      match rest with
      | [] => none
      | e :: rest2 =>
        match escChar e rest2 with
        | some (ch, r) =>
          match parseJStrF fuel r with
          | some (s, r2) => some (ch :: s, r2)
          | none => none
        | none => none
    else if c.toNat < 32 then none
    else
      match parseJStrF fuel rest with
      | some (s, r2) => some (c :: s, r2)
      | none => none

/-- String-body parser with fuel sized from the input. -/
def parseJStr (cs : List Char) : Option (List Char × List Char) :=
  parseJStrF (cs.length + 1) cs

/-- Parse a JSON number (leading digits at head of input). -/
def parseJNum (cs : List Char) : Option (Rat × List Char) :=
  let (neg, cs1) :=
    match cs with
    | '-' :: t => (true, t)
    | _ => (false, cs)
  let intDigits := cs1.takeWhile Char.isDigit
  let rest1 := cs1.dropWhile Char.isDigit
  -- JSON grammar: no leading zeros, at least one digit
  if intDigits.isEmpty then none
  else if intDigits.length > 1 ∧ intDigits.headD '0' = '0' then none
  else
    let intVal : Nat := intDigits.foldl (fun a c => a * 10 + digitVal c) 0
    let (fracDigits, rest2) :=
      match rest1 with
      | '.' :: t =>
        let f := t.takeWhile Char.isDigit
        (f, t.dropWhile Char.isDigit)
      | _ => ([], rest1)
    -- a dot must be followed by at least one digit
    if (match rest1 with | '.' :: _ => fracDigits.isEmpty | _ => false) then none
    else
      let fracVal : Nat := fracDigits.foldl (fun a c => a * 10 + digitVal c) 0
      let (expOk, expNeg, expDigits, rest3) :=
        match rest2 with
        | 'e' :: '+' :: t => (true, false, t.takeWhile Char.isDigit, t.dropWhile Char.isDigit)
        | 'e' :: '-' :: t => (true, true, t.takeWhile Char.isDigit, t.dropWhile Char.isDigit)
        | 'e' :: t => (true, false, t.takeWhile Char.isDigit, t.dropWhile Char.isDigit)
        | 'E' :: '+' :: t => (true, false, t.takeWhile Char.isDigit, t.dropWhile Char.isDigit)
        | 'E' :: '-' :: t => (true, true, t.takeWhile Char.isDigit, t.dropWhile Char.isDigit)
        | 'E' :: t => (true, false, t.takeWhile Char.isDigit, t.dropWhile Char.isDigit)
        | _ => (false, false, [], rest2)
      if expOk ∧ expDigits.isEmpty then none
      else
        let expVal : Nat := expDigits.foldl (fun a c => a * 10 + digitVal c) 0
        let mantissa : Rat :=
          (intVal : Rat) + (fracVal : Rat) / ((10 : Rat) ^ fracDigits.length)
        let scaled : Rat :=
          if expNeg then mantissa / ((10 : Rat) ^ expVal)
          else mantissa * ((10 : Rat) ^ expVal)
        some ((if neg then -scaled else scaled), rest3)

/-- Insert a key into an object: position of the first occurrence, value of
the last (Python dict assignment semantics). -/
def objInsert (k : String) (v : PyVal) : List (String × PyVal) → List (String × PyVal)
  | [] => [(k, v)]
  | (k2, v2) :: t => if k2 = k then (k2, v) :: t else (k2, v2) :: objInsert k v t

mutual

/-- Parse one JSON value (leading whitespace allowed). -/
def parseJVal : Nat → List Char → Option (PyVal × List Char)
  | 0, _ => none
  | fuel + 1, cs =>
    match (cs.dropWhile isJsonWs) with
    | [] => none
    | c :: rest =>
      if c = dq then
        match parseJStr rest with
        | some (s, r) => some (.str (String.mk s), r)
        | none => none
      else if c = '[' then
        match (rest.dropWhile isJsonWs) with
        | ']' :: r => some (.list [], r)
        | r => match parseJArr fuel r with
               | some (l, r2) => some (.list l, r2)
               | none => none
      else if c = Char.ofNat 123 then
        match (rest.dropWhile isJsonWs) with
        | r =>
          if r.headD ' ' = Char.ofNat 125 then some (.dict [], r.tail)
          else match parseJObj fuel r [] with
               | some (o, r2) => some (.dict o, r2)
               | none => none
      else if c = 't' then
        match rest with
        | 'r' :: 'u' :: 'e' :: r => some (.bool true, r)
        | _ => none
      else if c = 'f' then
        match rest with
        | 'a' :: 'l' :: 's' :: 'e' :: r => some (.bool false, r)
        | _ => none
      else if c = 'n' then
        match rest with
        | 'u' :: 'l' :: 'l' :: r => some (.null, r)
        | _ => none
      else
        match parseJNum (c :: rest) with
        | some (q, r) => some (.num q, r)
        | none => none

/-- Parse the items of a JSON array (after `[`, first item pending). -/
def parseJArr : Nat → List Char → Option (List PyVal × List Char)
  | 0, _ => none
  | fuel + 1, cs =>
    match parseJVal fuel cs with
    | none => none
    | some (v, r) =>
      match (r.dropWhile isJsonWs) with
      | ',' :: r2 =>
        match parseJArr fuel r2 with
        | some (l, r3) => some (v :: l, r3)
        | none => none
      | ']' :: r2 => some ([v], r2)
      | _ => none

/-- Parse the members of a JSON object (after the opening brace, first
member pending); the accumulator carries members already parsed. -/
def parseJObj : Nat → List Char → List (String × PyVal) → Option (List (String × PyVal) × List Char)
  | 0, _, _ => none
  | fuel + 1, cs, acc =>
    match (cs.dropWhile isJsonWs) with
    | c :: rest =>
      if c = dq then
        match parseJStr rest with
        | some (k, r) =>
          match (r.dropWhile isJsonWs) with
          | ':' :: r2 =>
            match parseJVal fuel r2 with
            | some (v, r3) =>
              let acc2 := objInsert (String.mk k) v acc
              match (r3.dropWhile isJsonWs) with
              | ',' :: r4 => parseJObj fuel r4 acc2
              | c2 :: r4 =>
                if c2 = Char.ofNat 125 then some (acc2, r4) else none
              | [] => none
            | none => none
          | _ => none
        | none => none
      else none
    | [] => none

end

/-- Model of Python `json.loads` on a string argument.  The only exception
it can raise there is `json.JSONDecodeError`. -/
def json_loads (s : String) : Except PyErr PyVal :=
  let cs := s.data
  match parseJVal (2 * cs.length + 8) cs with
  | some (v, rest) => if (rest.dropWhile isJsonWs).isEmpty then .ok v else .error .jsonDecodeError
  | none => .error .jsonDecodeError

/-! ### TextNormalizer: `clean_quotes` -/

/-- Quote-wrapped test on a trimmed character list: starts and ends with the
same quote character (double or single) and has length at least 2, exactly
as the two branches of `clean_quotes` test. -/
def quoteWrapped (cs : List Char) : Bool :=
  (cs.headD ' ' = dq && cs.getLastD ' ' = dq && cs.length ≥ 2) ||
  (cs.headD ' ' = sq && cs.getLastD ' ' = sq && cs.length ≥ 2)

/-- Python `text[1:-1]`. -/
def dropEnds (cs : List Char) : List Char := (cs.drop 1).dropLast

/-- Embedding of `clean_quotes` (source lines 27-42): strip whitespace, then
remove exactly one pair of matching surrounding quotes if present. -/
def clean_quotes (s : String) : String :=
  if s = "" then s
  else
    let t := pyStrip s.data
    if quoteWrapped t then String.mk (dropEnds t) else String.mk t

/-! ### TimeRangeParser: `parse_time_range`

The source matches the regular expression
`(\d{1,2})(?::(\d{2}))?\s*(am|pm)?\s*-\s*(\d{1,2})(?::(\d{2}))?\s*(am|pm)?`
with `re.search` and `re.IGNORECASE`.  The pattern is compiled by hand into
a leftmost-match backtracking matcher.  The only genuinely nondeterministic
pieces are the greedy `\d{1,2}` repetitions and the optional minute group,
which try the longer alternative first; the whitespace stars and meridiem
options are followed by characters they cannot themselves match, so a
greedy deterministic scan is exact for them.  `\d` and `\s` are modelled on
their ASCII ranges. -/

/-- Meridiem marker. -/
inductive AmPm where
  | am
  | pm
deriving DecidableEq

/-- Captured groups of one regex match: hour, optional minute, optional
meridiem for each of the two sides. -/
structure TimeMatch where
  h1 : Nat
  m1 : Option Nat
  ap1 : Option AmPm
  h2 : Nat
  m2 : Option Nat
  ap2 : Option AmPm
deriving DecidableEq

/-- Whitespace class `\s` of the regex (ASCII part). -/
def skipSpaces (cs : List Char) : List Char := cs.dropWhile isPySpace

/-- Candidate parses of `(\d{1,2})`, greedy (two digits tried first). -/
def hourCands : List Char → List (Nat × List Char)
  | [] => []
  | [a] => if a.isDigit then [(digitVal a, [])] else []
  | a :: b :: rest =>
    if a.isDigit then
      if b.isDigit then
        [(digitVal a * 10 + digitVal b, rest), (digitVal a, b :: rest)]
      else [(digitVal a, b :: rest)]
    else []

/-- Candidate parses of `(?::(\d{2}))?`, greedy (colon-minute tried first). -/
def minuteCands (cs : List Char) : List (Option Nat × List Char) :=
  match cs with
  | c :: a :: b :: rest =>
    if c = ':' ∧ a.isDigit ∧ b.isDigit then
      [(some (digitVal a * 10 + digitVal b), rest), (none, cs)]
    else [(none, cs)]
  | _ => [(none, cs)]

/-- Deterministic parse of `(am|pm)?` (case-insensitive). -/
def takeAmPm (cs : List Char) : Option AmPm × List Char :=
  match cs with
  | c :: m :: rest =>
    if (c = 'a' ∨ c = 'A') ∧ (m = 'm' ∨ m = 'M') then (some .am, rest)
    else if (c = 'p' ∨ c = 'P') ∧ (m = 'm' ∨ m = 'M') then (some .pm, rest)
    else (none, cs)
  | _ => (none, cs)

/-- Try to match the full pattern at the head of the input. -/
def matchFrom (cs : List Char) : Option TimeMatch :=
  (hourCands cs).findSome? fun hc =>
    (minuteCands hc.2).findSome? fun mc =>
      let r3 := skipSpaces mc.2
      let a1 := takeAmPm r3
      let r5 := skipSpaces a1.2
      match r5 with
      | '-' :: r6 =>
        let r7 := skipSpaces r6
        (hourCands r7).findSome? fun hc2 =>
          (minuteCands hc2.2).findSome? fun mc2 =>
            let r10 := skipSpaces mc2.2
            let a2 := takeAmPm r10
            some ⟨hc.1, mc.1, a1.1, hc2.1, mc2.1, a2.1⟩
      | _ => none

/-- Model of `re.search`: leftmost starting position wins. -/
def pySearch : List Char → Option TimeMatch
  | [] => none
  | c :: rest =>
    match matchFrom (c :: rest) with
    | some md => some md
    | none => pySearch rest

/-- A parsed time interval (the dict `\x7b"start": …, "end": …\x7d` of the
source; `end` is a Lean keyword, hence the field name `end_`). -/
structure TimeInterval where
  start : String
  end_ : String
  note : Option String
deriving DecidableEq

/-- The canonical always-open interval returned for "Open 24 hours". -/
def alwaysOpenTI : TimeInterval :=
  ⟨"00:00", "23:59", some "Open 24 hours"⟩

/-- Start meridiem after inference (source lines 105-106): if the start has
no meridiem but the end does, the start inherits the end's meridiem. -/
def effAp1 (md : TimeMatch) : Option AmPm :=
  match md.ap1, md.ap2 with
  | none, some x => some x
  | a, _ => a

/-- 24-hour conversion of one side (source lines 109-117). -/
def conv24 (h : Nat) (ap : Option AmPm) : Nat :=
  if ap = some .pm ∧ h ≠ 12 then h + 12
  else if ap = some .am ∧ h = 12 then 0
  else h

/-- Converted start hour. -/
def convStart (md : TimeMatch) : Nat := conv24 md.h1 (effAp1 md)

/-- Converted end hour, including the redundant midnight special case of
source lines 120-121 (dead after the conversion above, kept for fidelity). -/
def convEnd (md : TimeMatch) : Nat :=
  let e := conv24 md.h2 md.ap2
  if e = 12 ∧ md.ap2 = some .am then 0 else e

/-- Build the returned interval from a match (source lines 123-126). -/
def convertMatch (md : TimeMatch) : TimeInterval :=
  ⟨String.mk (pad2 (convStart md) ++ ':' :: pad2 (md.m1.getD 0)),
   String.mk (pad2 (convEnd md) ++ ':' :: pad2 (md.m2.getD 0)),
   none⟩

/-- Marker phrases checked before the regex. -/
def open24Marker : List Char := "24 hours".data

/-- Long form of the always-open marker. -/
def open24LongMarker : List Char := "Open 24 hours".data

/-- Closed-day marker (case-sensitive, as in the source). -/
def closedMarker : List Char := "Closed".data

/-- The part of `parse_time_range` that runs on the stripped text of the
input (source lines 81-126). -/
def parseTimeStr (cs : List Char) : Option TimeInterval :=
  let t := pyStrip cs
  if containsSub open24LongMarker t || containsSub open24Marker t then
    some alwaysOpenTI
  else if containsSub closedMarker t then
    none
  else
    match pySearch t with
    | none => none
    | some md => some (convertMatch md)

/-- Embedding of `parse_time_range` (source lines 70-126) on an arbitrary
value.  `None`/`NaN` and the empty string return `None`; other scalars go
through `str()` and the text parser.  Container values reach `pd.isna`,
whose truthiness on list-likes raises in the deployed pandas/numpy stack;
the embedding maps both container shapes to an error, and every theorem
below either restricts attention to scalar inputs or conditions on an
`Except.ok` result. -/
def parse_time_range (v : PyVal) : Except PyErr (Option TimeInterval) :=
  match v with
  | .null => .ok none
  | .list _ => .error .valueError
  | .dict _ => .error .valueError
  | .str s => if s = "" then .ok none else .ok (parseTimeStr s.data)
  | .num q => .ok (parseTimeStr (numStr q))
  | .bool b => .ok (parseTimeStr (if b then "True".data else "False".data))

/-! ### ScheduleBuilder: `transform_hours_to_schedule` -/

/-- The fixed weekday vocabulary `DAY_MAPPING` (source lines 10-18). -/
def DAY_MAPPING : List (String × String) :=
  [("Monday", "mon"), ("Tuesday", "tue"), ("Wednesday", "wed"),
   ("Thursday", "thu"), ("Friday", "fri"), ("Saturday", "sat"),
   ("Sunday", "sun")]

/-- The canonical abbreviation order `ALL_DAYS_ABBR` (source line 21). -/
def ALL_DAYS_ABBR : List String :=
  ["mon", "tue", "wed", "thu", "fri", "sat", "sun"]

/-- One output schedule entry (`\x7b"days": […], "times": […]\x7d`). -/
structure DaySchedule where
  days : List String
  times : List TimeInterval
deriving DecidableEq

/-- Sort key for a day abbreviation (source line 183):
`ALL_DAYS_ABBR.index(x) if x in ALL_DAYS_ABBR else 999`. -/
def dayKey (d : String) : Nat := (ALL_DAYS_ABBR.indexOf? d).getD 999

/-- Day comparison used by the stable sort of a `days` list. -/
def dayLe (a b : String) : Prop := dayKey a ≤ dayKey b

instance : DecidableRel dayLe := fun a b => Nat.decLe (dayKey a) (dayKey b)

instance : IsTotal String dayLe := ⟨fun a b => Nat.le_total (dayKey a) (dayKey b)⟩

instance : IsTrans String dayLe := ⟨fun _ _ _ => Nat.le_trans⟩

/-- Sort key for a schedule entry (source line 190): weekday index of its
first day, `999` if there is none or it is unrecognised. -/
def schedKey (e : DaySchedule) : Nat :=
  match e.days with
  | [] => 999
  | d :: _ => dayKey d

/-- Schedule-entry comparison for the final stable sort. -/
def schedLe (a b : DaySchedule) : Prop := schedKey a ≤ schedKey b

instance : DecidableRel schedLe := fun a b => Nat.decLe (schedKey a) (schedKey b)

instance : IsTotal DaySchedule schedLe := ⟨fun a b => Nat.le_total (schedKey a) (schedKey b)⟩

instance : IsTrans DaySchedule schedLe := ⟨fun _ _ _ => Nat.le_trans⟩

/-- First value stored under a key in a decoded object.  The JSON parser
keeps keys unique, so this is Python dict lookup. -/
def dictLookup (k : String) : List (String × PyVal) → Option PyVal
  | [] => none
  | (k2, v) :: t => if k2 = k then some v else dictLookup k t

/-- `DAY_MAPPING.get(day_name, day_name.lower()[:3])` (source line 176).
The default argument is evaluated unconditionally, so a non-string day
value raises `AttributeError` at `.lower()`. -/
def dayAbbr : PyVal → Except PyErr String
  | .str s => .ok ((DAY_MAPPING.lookup s).getD (String.mk ((s.data.map Char.toLower).take 3)))
  | _ => .error .attributeError

/-- The per-entry screening of the loop body (source lines 150-160): the
entry must be a dict holding both `day` and `times`, and `times` must be a
non-empty list; the day value and the first time value are consulted. -/
def consult? : PyVal → Option (PyVal × PyVal)
  | .dict d =>
    match dictLookup "day" d, dictLookup "times" d with
    | some dv, some (.list (t :: _)) => some (dv, t)
    | _, _ => none
  | _ => none

/-- Grouping state: one slot per distinct parsed interval, in insertion
order, with the day abbreviations collected for it.  The source keys its
dict by `json.dumps(time_obj, sort_keys=True)`, which is injective on the
interval dicts produced here, so keying by the interval itself is exact. -/
abbrev Sched := List (TimeInterval × List String)

/-- Add one day abbreviation under an interval key: append to an existing
slot, or open a new slot at the end (dict insertion order). -/
def appendDay (t : TimeInterval) (a : String) : Sched → Sched
  | [] => [(t, [a])]
  | (t2, ds) :: m => if t2 = t then (t2, ds ++ [a]) :: m else (t2, ds) :: appendDay t a m

/-- One iteration of the grouping loop (source lines 149-177).  In the
source the map slot is created before the day abbreviation is computed,
but an `AttributeError` raised by the abbreviation propagates and discards
the whole map, so creating slot and day together is observationally equal. -/
def stepEntry (m : Sched) (e : PyVal) : Except PyErr Sched :=
  match consult? e with
  | none => .ok m
  | some (dv, tv) =>
    match parse_time_range tv with
    | .error err => .error err
    | .ok none => .ok m
    | .ok (some ti) =>
      match dayAbbr dv with
      | .error err => .error err
      | .ok ab => .ok (appendDay ti ab m)

/-- Run the grouping loop over the decoded entries. -/
def runEntries : List PyVal → Sched → Except PyErr Sched
  | [], m => .ok m
  | e :: es, m =>
    match stepEntry m e with
    | .error err => .error err
    | .ok m2 => runEntries es m2

/-- Sort a `days` list (source line 183; Python `sorted` with a key is the
stable sort by the key comparison). -/
def sortDays (ds : List String) : List String := List.insertionSort dayLe ds

/-- Finalisation (source lines 180-192): one entry per slot with its days
sorted, then the entries sorted by their first day. -/
def finishSchedule (m : Sched) : List DaySchedule :=
  List.insertionSort schedLe (m.map fun p => ⟨sortDays p.2, [p.1]⟩)

/-- Grouping plus finalisation for a decoded entry list. -/
def buildSchedule (entries : List PyVal) : Except PyErr (List DaySchedule) :=
  match runEntries entries [] with
  | .error err => .error err
  | .ok m => .ok (finishSchedule m)

/-- Embedding of `transform_hours_to_schedule` (source lines 129-192) on a
string-or-absent input (the pipeline feeds it CSV cells).  A JSON decode
failure is caught and yields the empty schedule; exceptions raised inside
the loop propagate. -/
def transform_hours_to_schedule (input : Option String) : Except PyErr (List DaySchedule) :=
  match input with
  | none => .ok []
  | some s =>
    if s = "" ∨ s = "[]" then .ok []
    else
      match json_loads s with
      | .error _ => .ok []
      | .ok (.list entries) => buildSchedule entries
      | .ok _ => .ok []

/-! ### OpeningDayResolver: `transform_closed_on_to_opening_day` -/

/-- Python `day in DAY_MAPPING` on an arbitrary value: strings are looked
up, other hashable scalars are simply absent, and unhashable containers
raise `TypeError`. -/
def dayInMapping : PyVal → Except PyErr Bool
  | .str s => .ok (DAY_MAPPING.lookup s).isSome
  | .list _ => .error .typeError
  | .dict _ => .error .typeError
  | _ => .ok false

/-- Abbreviation of a value that passed the `day in DAY_MAPPING` test (only
strings can pass, and for them `DAY_MAPPING.get` returns the vocabulary
abbreviation). -/
def abbrOf : PyVal → String
  | .str s => (DAY_MAPPING.lookup s).getD (String.mk ((s.data.map Char.toLower).take 3))
  | _ => ""

/-- The list comprehension of source line 215: abbreviations of the listed
days that belong to the vocabulary, with errors propagating in evaluation
order. -/
def closedAbbrs : List PyVal → Except PyErr (List String)
  | [] => .ok []
  | d :: ds =>
    match dayInMapping d with
    | .error err => .error err
    | .ok b =>
      match closedAbbrs ds with
      | .error err => .error err
      | .ok rest => .ok (if b then abbrOf d :: rest else rest)

/-- The `try` block of source lines 211-218 on the stripped text: decode,
and if the result is a list, complement the vocabulary days listed in it,
falling back to the full week if nothing remains; a non-list decode falls
through to the final full-week return. -/
def closedBody (s : String) : Except PyErr (List String) :=
  match json_loads s with
  | .error _ => .error .jsonDecodeError
  | .ok (.list ds) =>
    match closedAbbrs ds with
    | .error err => .error err
    | .ok closed =>
      let opening := ALL_DAYS_ABBR.filter fun d => !(closed.contains d)
      .ok (if opening.isEmpty then ALL_DAYS_ABBR else opening)
  | .ok _ => .ok ALL_DAYS_ABBR

/-- Embedding of `transform_closed_on_to_opening_day` (source lines
195-223) on a string-or-absent input.  The `except` clause catches exactly
`json.JSONDecodeError` and `TypeError` and falls back to the full week. -/
def transform_closed_on_to_opening_day (input : Option String) : Except PyErr (List String) :=
  match input with
  | none => .ok ALL_DAYS_ABBR
  | some s =>
    if s = "" then .ok ALL_DAYS_ABBR
    else
      let t := String.mk (pyStrip s.data)
      if t = "Open All Days" then .ok ALL_DAYS_ABBR
      else
        match closedBody t with
        | .ok r => .ok r
        | .error e =>
          if e = .jsonDecodeError ∨ e = .typeError then .ok ALL_DAYS_ABBR
          else .error e

/-! ### CoordinateExtractor: `parse_coordinates` -/

/-- Acceptability of a string for Python `float()`: optional surrounding
whitespace, optional sign, then either a decimal literal (digits with an
optional dot and an optional exponent) or an infinity/nan word.  Only
whether the conversion succeeds is needed downstream. -/
def floatStrOk (s : String) : Bool :=
  let cs := pyStrip s.data
  let cs1 :=
    match cs with
    | '+' :: t => t
    | '-' :: t => t
    | _ => cs
  let low := cs1.map Char.toLower
  if low = "inf".data ∨ low = "infinity".data ∨ low = "nan".data then true
  else
    let intPart := cs1.takeWhile Char.isDigit
    let r1 := cs1.dropWhile Char.isDigit
    let hasDot : Bool :=
      match r1 with
      | '.' :: _ => true
      | _ => false
    let (fracPart, r2) :=
      match r1 with
      | '.' :: t => (t.takeWhile Char.isDigit, t.dropWhile Char.isDigit)
      | _ => ([], r1)
    if intPart.isEmpty && (fracPart.isEmpty || !hasDot) then false
    else
      match r2 with
      | [] => true
      | e :: t =>
        if e = 'e' ∨ e = 'E' then
          let t2 :=
            match t with
            | '+' :: t3 => t3
            | '-' :: t3 => t3
            | _ => t
          !t2.isEmpty ∧ t2.all Char.isDigit
        else false

/-- Python `float(v)`: numbers and booleans convert, strings convert when
they are float literals (`ValueError` otherwise), and `None` and
containers raise `TypeError`. -/
def pyFloatChk : PyVal → Except PyErr Unit
  | .num _ => .ok ()
  | .bool _ => .ok ()
  | .str s => if floatStrOk s then .ok () else .error .valueError
  | .null => .error .typeError
  | .list _ => .error .typeError
  | .dict _ => .error .typeError

/-- The `try` block of source lines 235-241: decode, and if the result is a
dict holding both `latitude` and `longitude`, convert both with `float`;
a non-dict or key-less decode falls through to the final `return None`. -/
def coordsBody (s : String) : Except PyErr (Option (PyVal × PyVal)) :=
  match json_loads s with
  | .error _ => .error .jsonDecodeError
  | .ok (.dict d) =>
    match dictLookup "latitude" d, dictLookup "longitude" d with
    | some la, some lo =>
      match pyFloatChk la with
      | .error err => .error err
      | .ok _ =>
        match pyFloatChk lo with
        | .error err => .error err
        | .ok _ => .ok (some (la, lo))
    | _, _ => .ok none
  | .ok _ => .ok none

/-- Embedding of `parse_coordinates` (source lines 226-245) on a
string-or-absent input.  The `except` clause catches `json.JSONDecodeError`,
`TypeError`, `ValueError` and `KeyError` and returns `None`.  The returned
pair holds the raw latitude and longitude values whose `float()` conversion
succeeded. -/
def parse_coordinates (input : Option String) : Except PyErr (Option (PyVal × PyVal)) :=
  match input with
  | none => .ok none
  | some s =>
    if s = "" then .ok none
    else
      match coordsBody s with
      | .ok r => .ok r
      | .error e =>
        if e = .jsonDecodeError ∨ e = .typeError ∨ e = .valueError ∨ e = .keyError then
          .ok none
        else .error e

/-! ### Auxiliary definitions used by the verification statements -/

/-- Decompose a five-character `HH:MM` string into its hour and minute. -/
def parseHHMM : List Char → Option (Nat × Nat)
  | [a, b, c, d, e] =>
    if a.isDigit ∧ b.isDigit ∧ c = ':' ∧ d.isDigit ∧ e.isDigit then
      some (digitVal a * 10 + digitVal b, digitVal d * 10 + digitVal e)
    else none
  | _ => none

/-- A zero-padded valid 24-hour clock string: exactly `HH:MM` with
`HH ≤ 23` and `MM ≤ 59`. -/
def validHHMM (s : String) : Bool :=
  match parseHHMM s.data with
  | some (h, m) => if h ≤ 23 ∧ m ≤ 59 then true else false
  | none => false

/-- Scalar (non-container) values. -/
def scalarB : PyVal → Bool
  | .list _ => false
  | .dict _ => false
  | _ => true

/-- String values. -/
def isStrB : PyVal → Bool
  | .str _ => true
  | _ => false

/-- Hashable values (containers are unhashable in Python). -/
def hashableB : PyVal → Bool
  | .list _ => false
  | .dict _ => false
  | _ => true

/-- The abbreviation an entry contributes to the group of interval `t`:
present exactly when the entry is consulted, its first time parses to `t`,
and its day abbreviates without error. -/
def abbrFor (t : TimeInterval) (e : PyVal) : Option String :=
  match consult? e with
  | none => none
  | some (dv, tv) =>
    match parse_time_range tv with
    | .ok (some ti) =>
      if ti = t then
        match dayAbbr dv with
        | .ok a => some a
        | .error _ => none
      else none
    | _ => none

/-- The abbreviation an entry contributes to any group at all. -/
def abbrForAny (e : PyVal) : Option String :=
  match consult? e with
  | none => none
  | some (dv, tv) =>
    match parse_time_range tv with
    | .ok (some _) =>
      match dayAbbr dv with
      | .ok a => some a
      | .error _ => none
    | _ => none

/-- All abbreviations collected for the group of interval `t`, in input
order. -/
def collect (t : TimeInterval) (entries : List PyVal) : List String :=
  entries.filterMap (abbrFor t)

/-- Lookup of a grouping slot by its interval key. -/
def lookupS (t : TimeInterval) : Sched → Option (List String)
  | [] => none
  | (t2, ds) :: m => if t2 = t then some ds else lookupS t m

/-- The interval keys of the grouping state. -/
def keys (m : Sched) : List TimeInterval := m.map Prod.fst

/-- Truncate a decoded `times` value to its first element. -/
def truncTimes : PyVal → PyVal
  | .list l => .list (l.take 1)
  | v => v

/-- Truncate the `times` field of a decoded hours entry to its first
element, leaving everything else alone. -/
def truncEntry : PyVal → PyVal
  | .dict d => .dict (d.map fun kv => (kv.1, if kv.1 = "times" then truncTimes kv.2 else kv.2))
  | v => v

/-- A consulted hours entry is benign when its day value is a string and
its first time value is a scalar (the shapes on which the loop body cannot
raise). -/
def entryOK (e : PyVal) : Bool :=
  match consult? e with
  | none => true
  | some (dv, tv) => isStrB dv && scalarB tv

/-- Benignity of a whole hours input: whatever decodes must have benign
consulted entries. -/
def hoursOK (input : Option String) : Bool :=
  match input with
  | none => true
  | some s =>
    match json_loads s with
    | .error _ => true
    | .ok (.list l) => l.all entryOK
    | .ok _ => true

/-- Opening days as the specification words them: the full week minus the
listed days that belong to the weekday vocabulary (entries outside the
vocabulary dropped, not abbreviated), falling back to the full week when
nothing remains. -/
def openingDaysSpec (ds : List PyVal) : List String :=
  let closed := ds.filterMap fun d =>
    match d with
    | .str n => DAY_MAPPING.lookup n
    | _ => none
  let rem := ALL_DAYS_ABBR.filter fun d => !(closed.contains d)
  if rem.isEmpty then ALL_DAYS_ABBR else rem

/-! ### Verification: TextNormalizer -/

theorem clean_quotes_fixed (t : String) (h1 : pyStrip t.data = t.data)
    (h2 : quoteWrapped t.data = false) : clean_quotes t = t := by
  unfold clean_quotes
  by_cases ht : t = ""
  · simp [ht]
  · simp [ht, h1, h2]

theorem wrapped_shape (t : List Char) (h : quoteWrapped t = true) :
    ∃ q mid, (q = dq ∨ q = sq) ∧ t = q :: (mid ++ [q]) ∧ dropEnds t = mid := by
  match t with
  | [] =>
    simp only [quoteWrapped, Bool.or_eq_true, Bool.and_eq_true, decide_eq_true_eq,
      List.headD_nil] at h
    rcases h with ⟨⟨h1, _⟩, _⟩ | ⟨⟨h1, _⟩, _⟩ <;> exact absurd h1 (by decide)
  | [a] =>
    simp only [quoteWrapped, Bool.or_eq_true, Bool.and_eq_true, decide_eq_true_eq] at h
    rcases h with ⟨_, h2⟩ | ⟨_, h2⟩ <;>
      (simp only [List.length_cons, List.length_nil] at h2; omega)
  | a :: b :: rest =>
    have hne : (b :: rest) ≠ [] := List.cons_ne_nil b rest
    have hlast : List.getLastD (a :: b :: rest) ' ' = (b :: rest).getLast hne := by
      rw [List.getLastD_cons, List.getLastD_eq_getLast?, List.getLast?_eq_getLast _ hne]
      rfl
    have hshape : a :: b :: rest =
        a :: ((b :: rest).dropLast ++ [(b :: rest).getLast hne]) := by
      rw [List.dropLast_append_getLast hne]
    simp only [quoteWrapped, Bool.or_eq_true, Bool.and_eq_true, decide_eq_true_eq,
      List.headD_cons] at h
    rcases h with ⟨⟨hq, hl⟩, _⟩ | ⟨⟨hq, hl⟩, _⟩
    · refine ⟨a, (b :: rest).dropLast, Or.inl hq, ?_, rfl⟩
      rw [hlast] at hl
      have hga : (b :: rest).getLast hne = a := by rw [hl, hq]
      rw [hga] at hshape
      exact hshape
    · refine ⟨a, (b :: rest).dropLast, Or.inr hq, ?_, rfl⟩
      rw [hlast] at hl
      have hga : (b :: rest).getLast hne = a := by rw [hl, hq]
      rw [hga] at hshape
      exact hshape

/-- Claim C5 counterexample: `clean_quotes` is not idempotent.  Stripping a
quote pair can expose surrounding whitespace which only a second
application trims: one application of the source function to `'" a "'`
yields `" a "`, a second application yields `"a"`. -/
theorem clean_quotes_not_idempotent :
    clean_quotes "\" a \"" = " a " ∧
      clean_quotes (clean_quotes "\" a \"") ≠ clean_quotes "\" a \"" := by
  constructor
  · decide
  · decide

/-- Claim C5 (amended): `clean_quotes` is idempotent on every input whose
first result is already whitespace-trimmed and not quote-wrapped; in
general a second application can trim further or strip another quote
pair. -/
theorem clean_quotes_idempotent_amended (s : String)
    (h1 : pyStrip (clean_quotes s).data = (clean_quotes s).data)
    (h2 : quoteWrapped (clean_quotes s).data = false) :
    clean_quotes (clean_quotes s) = clean_quotes s :=
  clean_quotes_fixed (clean_quotes s) h1 h2

/-- Witness for the amended C5 theorem at the input `'"a"'`. -/
theorem clean_quotes_idempotent_amended_witness :
    (pyStrip (clean_quotes "\"a\"").data = (clean_quotes "\"a\"").data ∧
        quoteWrapped (clean_quotes "\"a\"").data = false) ∧
      clean_quotes (clean_quotes "\"a\"") = clean_quotes "\"a\"" :=
  ⟨⟨by decide, by decide⟩, clean_quotes_idempotent_amended "\"a\"" (by decide) (by decide)⟩

/-- Claim C6 counterexample: on a non-empty input that is not quote-wrapped,
`clean_quotes` does not return the input unchanged — it also trims
whitespace (`" a "` becomes `"a"`). -/
theorem clean_quotes_changes_unwrapped_input :
    quoteWrapped (pyStrip (" a ").data) = false ∧ clean_quotes " a " ≠ " a " := by
  constructor
  · decide
  · decide

/-- Claim C6 (amended): `clean_quotes` first trims surrounding whitespace;
if the trimmed form is not quote-wrapped (matching double or single quotes,
length at least 2) it returns the trimmed input, and otherwise it removes
exactly one leading and one trailing quote character from the trimmed
input. -/
theorem clean_quotes_amended (s : String) (hs : s ≠ "") :
    (quoteWrapped (pyStrip s.data) = false → clean_quotes s = String.mk (pyStrip s.data)) ∧
      (quoteWrapped (pyStrip s.data) = true →
        ∃ q mid, (q = dq ∨ q = sq) ∧ pyStrip s.data = q :: (mid ++ [q]) ∧
          clean_quotes s = String.mk mid) := by
  constructor
  · intro hw
    unfold clean_quotes
    simp [hs, hw]
  · intro hw
    obtain ⟨q, mid, hq, hshape, hdrop⟩ := wrapped_shape (pyStrip s.data) hw
    refine ⟨q, mid, hq, hshape, ?_⟩
    unfold clean_quotes
    simp [hs, hw, hdrop]

/-- Witness for the amended C6 theorem at the inputs `'"ab"'`. -/
theorem clean_quotes_amended_witness :
    ("\"ab\"" : String) ≠ "" ∧
      (quoteWrapped (pyStrip ("\"ab\"" : String).data) = true →
        ∃ q mid, (q = dq ∨ q = sq) ∧ pyStrip ("\"ab\"" : String).data = q :: (mid ++ [q]) ∧
          clean_quotes "\"ab\"" = String.mk mid) :=
  ⟨by decide, (clean_quotes_amended "\"ab\"" (by decide)).2⟩

/-! ### Verification: TimeRangeParser -/

/-- Claim C4 counterexample: the source returns the very same `None` for a
"Closed" input as for unparsable input — there is no distinct
closed-sentinel value in the return channel. -/
theorem closed_equals_unparsable :
    parse_time_range (.str "Closed") = .ok none ∧
      parse_time_range (.str "no such time") = .ok none ∧
      parse_time_range (.str "Closed") = parse_time_range (.str "no such time") := by
  refine ⟨by decide, by decide, by decide⟩

/-- Claim C4 (amended): for every non-empty input whose stripped text
contains the (case-sensitive) "Closed" marker and no 24-hours marker,
`parse_time_range` returns `None` — the same value it returns for
unparsable input; the closed case is not distinguishable from the
unparsable case at the return level. -/
theorem closed_returns_none (s : String) (hs : s ≠ "")
    (h24 : (containsSub open24LongMarker (pyStrip s.data) ||
      containsSub open24Marker (pyStrip s.data)) = false)
    (hcl : containsSub closedMarker (pyStrip s.data) = true) :
    parse_time_range (.str s) = .ok none := by
  unfold parse_time_range parseTimeStr
  simp [hs, h24, hcl]

/-- Witness for the amended C4 theorem at the input `"Closed"`. -/
theorem closed_returns_none_witness :
    (("Closed" : String) ≠ "" ∧
        (containsSub open24LongMarker (pyStrip ("Closed" : String).data) ||
          containsSub open24Marker (pyStrip ("Closed" : String).data)) = false ∧
        containsSub closedMarker (pyStrip ("Closed" : String).data) = true) ∧
      parse_time_range (.str "Closed") = .ok none :=
  ⟨⟨by decide, by decide, by decide⟩, closed_returns_none "Closed" (by decide) (by decide) (by decide)⟩

/-- Claim C7: when the regex matches with no meridiem on the start side and
a meridiem on the end side, the result is as if the start side carried the
end side's meridiem (source lines 105-106), and in particular
`parse_time_range "4:30-8:30 pm"` yields 16:30-20:30. -/
theorem meridiem_inference (s : String) (md : TimeMatch) (m : AmPm) (hs : s ≠ "")
    (h24 : (containsSub open24LongMarker (pyStrip s.data) ||
      containsSub open24Marker (pyStrip s.data)) = false)
    (hcl : containsSub closedMarker (pyStrip s.data) = false)
    (hsearch : pySearch (pyStrip s.data) = some md)
    (hap1 : md.ap1 = none) (hap2 : md.ap2 = some m) :
    parse_time_range (.str s) =
        .ok (some (convertMatch ⟨md.h1, md.m1, some m, md.h2, md.m2, md.ap2⟩)) ∧
      parse_time_range (.str "4:30-8:30 pm") = .ok (some ⟨"16:30", "20:30", none⟩) := by
  constructor
  · unfold parse_time_range parseTimeStr
    simp only [hs, h24, hcl, hsearch, if_neg, Bool.false_eq_true, if_false]
    have hconv : convertMatch md = convertMatch ⟨md.h1, md.m1, some m, md.h2, md.m2, md.ap2⟩ := by
      unfold convertMatch convStart convEnd effAp1
      rw [hap1, hap2]
    simp [hs, hconv]
  · decide

/-- Witness for the C7 theorem at the input `"4:30-8:30 pm"`. -/
theorem meridiem_inference_witness :
    (pySearch (pyStrip ("4:30-8:30 pm" : String).data) =
        some ⟨4, some 30, none, 8, some 30, some .pm⟩) ∧
      parse_time_range (.str "4:30-8:30 pm") =
        .ok (some (convertMatch ⟨4, some 30, some .pm, 8, some 30, some .pm⟩)) :=
  ⟨by decide,
    (meridiem_inference "4:30-8:30 pm" ⟨4, some 30, none, 8, some 30, some .pm⟩ .pm
      (by decide) (by decide) (by decide) (by decide) (by decide) (by decide)).1⟩

theorem digitChar_isDigit {d : Nat} (h : d ≤ 9) : (digitChar d).isDigit = true := by
  interval_cases d <;> decide

theorem digitVal_digitChar {d : Nat} (h : d ≤ 9) : digitVal (digitChar d) = d := by
  interval_cases d <;> decide

theorem pad2_eq {h : Nat} (hle : h ≤ 99) : pad2 h = [digitChar (h / 10), digitChar (h % 10)] := by
  unfold pad2 natChars
  by_cases h10 : h < 10
  · have hd : h / 10 = 0 := Nat.div_eq_of_lt h10
    have hm : h % 10 = h := Nat.mod_eq_of_lt h10
    simp [h10, hd, hm]
    decide
  · have h100 : h < 100 := by omega
    simp [h10, h100]

theorem validHHMM_pad {h m : Nat} (hh : h ≤ 23) (hm : m ≤ 59) :
    validHHMM (String.mk (pad2 h ++ ':' :: pad2 m)) = true := by
  have hp1 := pad2_eq (show h ≤ 99 by omega)
  have hp2 := pad2_eq (show m ≤ 99 by omega)
  have hd1 : h / 10 ≤ 9 := by omega
  have hd2 : h % 10 ≤ 9 := by omega
  have hd3 : m / 10 ≤ 9 := by omega
  have hd4 : m % 10 ≤ 9 := by omega
  have hdata : (String.mk (pad2 h ++ ':' :: pad2 m)).data = pad2 h ++ ':' :: pad2 m := rfl
  have hstep : parseHHMM [digitChar (h / 10), digitChar (h % 10), ':',
      digitChar (m / 10), digitChar (m % 10)] = some (h, m) := by
    simp only [parseHHMM]
    rw [if_pos ⟨digitChar_isDigit hd1, digitChar_isDigit hd2, trivial,
      digitChar_isDigit hd3, digitChar_isDigit hd4⟩]
    rw [digitVal_digitChar hd1, digitVal_digitChar hd2,
      digitVal_digitChar hd3, digitVal_digitChar hd4]
    have hv1 : h / 10 * 10 + h % 10 = h := by omega
    have hv2 : m / 10 * 10 + m % 10 = m := by omega
    rw [hv1, hv2]
  simp only [validHHMM]
  rw [hp1, hp2]
  simp only [List.cons_append, List.nil_append] at hstep ⊢
  rw [hstep]
  exact if_pos ⟨hh, hm⟩

/-- Claim C2 counterexample: the regex accepts hours up to 99 and minutes
up to 99, and no range check follows, so `parse_time_range` can return
fields that are not valid 24-hour clock strings. -/
theorem time_fields_counterexample :
    parse_time_range (.str "25:70-26:80") = .ok (some ⟨"25:70", "26:80", none⟩) ∧
      validHHMM "25:70" = false ∧ validHHMM "26:80" = false := by
  refine ⟨by decide, by decide, by decide⟩

/-- Claim C2 (amended): whenever `parse_time_range` returns an interval,
the `note` field is present only on the always-open sentinel; a non-sentinel
interval comes from a regex match and its two fields are zero-padded
`HH:MM` renderings of the converted hours and matched minutes, which are
valid 24-hour clock strings provided the converted hour is at most 23 and
the matched minute at most 59 (the source performs no range check, so
out-of-range components are rendered as matched). -/
theorem time_fields_amended (s : String) (ti : TimeInterval)
    (hp : parse_time_range (.str s) = .ok (some ti)) :
    (ti.note ≠ none → ti = alwaysOpenTI) ∧
      (ti.note = none → ∃ md, pySearch (pyStrip s.data) = some md ∧ ti = convertMatch md ∧
        (convStart md ≤ 23 → md.m1.getD 0 ≤ 59 → validHHMM ti.start = true) ∧
        (convEnd md ≤ 23 → md.m2.getD 0 ≤ 59 → validHHMM ti.end_ = true)) := by
  simp only [parse_time_range] at hp
  by_cases hs : s = ""
  · simp [hs] at hp
  · rw [if_neg hs] at hp
    simp only [parseTimeStr] at hp
    by_cases h24 : (containsSub open24LongMarker (pyStrip s.data) ||
        containsSub open24Marker (pyStrip s.data)) = true
    · rw [if_pos h24] at hp
      have hti : ti = alwaysOpenTI := by
        injection hp with hp2
        injection hp2 with hp3
        exact hp3.symm
      constructor
      · intro _
        exact hti
      · intro hnote
        rw [hti] at hnote
        simp [alwaysOpenTI] at hnote
    · rw [if_neg h24] at hp
      by_cases hcl : containsSub closedMarker (pyStrip s.data) = true
      · simp [hcl] at hp
      · rw [if_neg hcl] at hp
        cases hsearch : pySearch (pyStrip s.data) with
        | none => rw [hsearch] at hp; simp at hp
        | some md =>
          rw [hsearch] at hp
          have hti : ti = convertMatch md := by
            injection hp with hp2
            injection hp2 with hp3
            exact hp3.symm
          constructor
          · intro hnote
            rw [hti] at hnote
            simp [convertMatch] at hnote
          · intro _
            refine ⟨md, rfl, hti, ?_, ?_⟩
            · intro hhv hmv
              rw [hti]
              exact validHHMM_pad hhv hmv
            · intro hhv hmv
              rw [hti]
              exact validHHMM_pad hhv hmv

/-- Witness for the amended C2 theorem at the input `"4:30-8:30 pm"`. -/
theorem time_fields_amended_witness :
    parse_time_range (.str "4:30-8:30 pm") = .ok (some ⟨"16:30", "20:30", none⟩) ∧
      ((⟨"16:30", "20:30", none⟩ : TimeInterval).note = none →
        ∃ md, pySearch (pyStrip ("4:30-8:30 pm" : String).data) = some md ∧
          (⟨"16:30", "20:30", none⟩ : TimeInterval) = convertMatch md ∧
          (convStart md ≤ 23 → md.m1.getD 0 ≤ 59 →
            validHHMM (⟨"16:30", "20:30", none⟩ : TimeInterval).start = true) ∧
          (convEnd md ≤ 23 → md.m2.getD 0 ≤ 59 →
            validHHMM (⟨"16:30", "20:30", none⟩ : TimeInterval).end_ = true)) :=
  ⟨by decide, (time_fields_amended "4:30-8:30 pm" ⟨"16:30", "20:30", none⟩ (by decide)).2⟩

/-! ### Verification: ScheduleBuilder machinery -/

theorem ptr_scalar_ok (v : PyVal) (hv : scalarB v = true) :
    ∃ r, parse_time_range v = .ok r := by
  cases v with
  | null => exact ⟨none, rfl⟩
  | bool b => exact ⟨_, rfl⟩
  | num q => exact ⟨_, rfl⟩
  | str s =>
    by_cases hs : s = ""
    · exact ⟨none, by simp [parse_time_range, hs]⟩
    · exact ⟨parseTimeStr s.data, by simp [parse_time_range, hs]⟩
  | list l => simp [scalarB] at hv
  | dict d => simp [scalarB] at hv

theorem lookupS_appendDay (t : TimeInterval) (a : String) (m : Sched) (t2 : TimeInterval) :
    lookupS t2 (appendDay t a m) =
      if t2 = t then some ((lookupS t2 m).getD [] ++ [a]) else lookupS t2 m := by
  induction m with
  | nil =>
    by_cases h : t2 = t
    · subst h
      simp [appendDay, lookupS]
    · have h2 : ¬ t = t2 := fun hh => h hh.symm
      simp [appendDay, lookupS, h, h2]
  | cons p m ih =>
    obtain ⟨t3, ds⟩ := p
    by_cases h3 : t3 = t
    · subst h3
      by_cases h : t2 = t3
      · subst h
        simp [appendDay, lookupS]
      · have h2 : ¬ t3 = t2 := fun hh => h hh.symm
        simp [appendDay, lookupS, h, h2]
    · by_cases h32 : t3 = t2
      · subst h32
        simp [appendDay, lookupS, h3]
      · simp [appendDay, lookupS, h3, h32, ih]

theorem lookupS_stepEntry (m : Sched) (e : PyVal) (m2 : Sched)
    (hstep : stepEntry m e = .ok m2) (t : TimeInterval) :
    lookupS t m2 = match abbrFor t e with
      | some a => some ((lookupS t m).getD [] ++ [a])
      | none => lookupS t m := by
  cases hc : consult? e with
  | none =>
    simp only [stepEntry, hc] at hstep
    injection hstep with h
    simp only [abbrFor, hc]
    rw [← h]
  | some p =>
    obtain ⟨dv, tv⟩ := p
    cases hp : parse_time_range tv with
    | error err =>
      simp only [stepEntry, hc, hp] at hstep
      exact Except.noConfusion hstep
    | ok r =>
      cases r with
      | none =>
        simp only [stepEntry, hc, hp] at hstep
        injection hstep with h
        simp only [abbrFor, hc, hp]
        rw [← h]
      | some ti =>
        cases hd : dayAbbr dv with
        | error err =>
          simp only [stepEntry, hc, hp, hd] at hstep
          exact Except.noConfusion hstep
        | ok ab =>
          simp only [stepEntry, hc, hp, hd] at hstep
          injection hstep with h
          simp only [abbrFor, hc, hp, hd]
          rw [← h]
          by_cases hti : ti = t
          · subst hti
            simp [lookupS_appendDay]
          · have hti2 : ¬ t = ti := fun hh => hti hh.symm
            rw [lookupS_appendDay]
            simp [hti, hti2]

theorem lookupS_runEntries (es : List PyVal) :
    ∀ m m2, runEntries es m = .ok m2 → ∀ t,
      lookupS t m2 =
        if (lookupS t m).isNone ∧ collect t es = [] then none
        else some ((lookupS t m).getD [] ++ collect t es) := by
  induction es with
  | nil =>
    intro m m2 hrun t
    injection hrun with h
    rw [← h]
    cases hl : lookupS t m with
    | none => simp [collect, hl]
    | some ds => simp [collect, hl]
  | cons e es ih =>
    intro m m2 hrun t
    unfold runEntries at hrun
    cases hstep : stepEntry m e with
    | error err => rw [hstep] at hrun; exact absurd hrun (by simp)
    | ok m1 =>
      rw [hstep] at hrun
      have hmid := lookupS_stepEntry m e m1 hstep t
      have hrec := ih m1 m2 hrun t
      have hcoll : collect t (e :: es) =
          match abbrFor t e with
          | some a => a :: collect t es
          | none => collect t es := by
        unfold collect
        cases habbr : abbrFor t e <;> simp [List.filterMap_cons, habbr]
      cases habbr : abbrFor t e with
      | some a =>
        rw [habbr] at hmid hcoll
        rw [hcoll, hrec, hmid]
        simp
      | none =>
        rw [habbr] at hmid hcoll
        rw [hcoll, hrec, hmid]

theorem lookupS_none_iff (t : TimeInterval) (m : Sched) :
    lookupS t m = none ↔ t ∉ keys m := by
  induction m with
  | nil => simp [lookupS, keys]
  | cons p m ih =>
    obtain ⟨t2, ds⟩ := p
    by_cases h : t2 = t
    · subst h
      simp [lookupS, keys]
    · have h2 : ¬ t = t2 := fun hh => h hh.symm
      simp only [keys, List.map_cons, List.mem_cons, not_or]
      simp only [keys] at ih
      simp only [lookupS, if_neg h]
      rw [ih]
      exact (and_iff_right h2).symm

theorem keys_appendDay (t : TimeInterval) (a : String) (m : Sched) :
    keys (appendDay t a m) = if (lookupS t m).isSome then keys m else keys m ++ [t] := by
  induction m with
  | nil => simp [appendDay, lookupS, keys]
  | cons p m ih =>
    obtain ⟨t2, ds⟩ := p
    by_cases h : t2 = t
    · subst h
      simp [appendDay, lookupS, keys]
    · simp only [keys] at ih
      simp only [appendDay, keys, List.map_cons, lookupS, h, if_neg h, if_false, ih]
      by_cases hl : (lookupS t m).isSome
      · simp [hl]
      · simp [hl]

theorem nodup_keys_appendDay (t : TimeInterval) (a : String) (m : Sched)
    (h : (keys m).Nodup) : (keys (appendDay t a m)).Nodup := by
  rw [keys_appendDay]
  by_cases hl : (lookupS t m).isSome
  · simp [hl, h]
  · have hnone : lookupS t m = none := by
      cases hcase : lookupS t m
      · rfl
      · rw [hcase] at hl; simp at hl
    have hnotin : t ∉ keys m := (lookupS_none_iff t m).mp hnone
    simp [hl]
    rw [List.nodup_append]
    exact ⟨h, List.nodup_singleton t, by simpa using hnotin⟩

theorem nodup_keys_stepEntry (m : Sched) (e : PyVal) (m2 : Sched)
    (hstep : stepEntry m e = .ok m2) (h : (keys m).Nodup) : (keys m2).Nodup := by
  cases hc : consult? e with
  | none =>
    simp only [stepEntry, hc] at hstep
    injection hstep with hh
    rw [← hh]
    exact h
  | some p =>
    obtain ⟨dv, tv⟩ := p
    cases hp : parse_time_range tv with
    | error err =>
      simp only [stepEntry, hc, hp] at hstep
      exact Except.noConfusion hstep
    | ok r =>
      cases r with
      | none =>
        simp only [stepEntry, hc, hp] at hstep
        injection hstep with hh
        rw [← hh]
        exact h
      | some ti =>
        cases hd : dayAbbr dv with
        | error err =>
          simp only [stepEntry, hc, hp, hd] at hstep
          exact Except.noConfusion hstep
        | ok ab =>
          simp only [stepEntry, hc, hp, hd] at hstep
          injection hstep with hh
          rw [← hh]
          exact nodup_keys_appendDay ti ab m h

theorem nodup_keys_runEntries (es : List PyVal) :
    ∀ m m2, runEntries es m = .ok m2 → (keys m).Nodup → (keys m2).Nodup := by
  induction es with
  | nil =>
    intro m m2 hrun h
    injection hrun with hh
    rw [← hh]
    exact h
  | cons e es ih =>
    intro m m2 hrun h
    unfold runEntries at hrun
    cases hstep : stepEntry m e with
    | error err =>
      rw [hstep] at hrun
      exact Except.noConfusion hrun
    | ok m1 =>
      rw [hstep] at hrun
      exact ih m1 m2 hrun (nodup_keys_stepEntry m e m1 hstep h)

theorem lookupS_some_mem (t : TimeInterval) (ds : List String) (m : Sched)
    (h : lookupS t m = some ds) : (t, ds) ∈ m := by
  induction m with
  | nil => simp [lookupS] at h
  | cons p m ih =>
    obtain ⟨t2, ds2⟩ := p
    by_cases h2 : t2 = t
    · subst h2
      simp only [lookupS, if_pos rfl] at h
      injection h with hh
      rw [hh]
      exact List.mem_cons_self _ _
    · simp only [lookupS, if_neg h2] at h
      exact List.mem_cons_of_mem _ (ih h)

theorem mem_finishSchedule_iff (m : Sched) (e : DaySchedule) :
    e ∈ finishSchedule m ↔ ∃ p, p ∈ m ∧ e = ⟨sortDays p.2, [p.1]⟩ := by
  unfold finishSchedule
  rw [(List.perm_insertionSort schedLe _).mem_iff, List.mem_map]
  constructor
  · rintro ⟨p, hp, he⟩
    exact ⟨p, hp, he.symm⟩
  · rintro ⟨p, hp, he⟩
    exact ⟨p, hp, he.symm⟩

theorem pairwise_times_finishSchedule (m : Sched) (h : (keys m).Nodup) :
    (finishSchedule m).Pairwise fun a b => a.times ≠ b.times := by
  unfold finishSchedule
  have hsymm : ∀ {x y : DaySchedule}, x.times ≠ y.times → y.times ≠ x.times :=
    fun hne heq => hne heq.symm
  rw [(List.perm_insertionSort schedLe _).pairwise_iff fun hne => hsymm hne]
  rw [List.pairwise_map]
  have hbase : m.Pairwise fun p q => p.1 ≠ q.1 := List.pairwise_map.mp h
  exact hbase.imp fun hne heq => hne (by injection heq)

theorem transform_ok_build (s : String) (entries : List PyVal) (out : List DaySchedule)
    (hj : json_loads s = .ok (.list entries))
    (ht : transform_hours_to_schedule (some s) = .ok out) :
    ∃ m, runEntries entries [] = .ok m ∧ out = finishSchedule m ∧ (keys m).Nodup := by
  have hsne : s ≠ "" := by
    intro hs
    rw [hs] at hj
    have hemp : json_loads "" = .error .jsonDecodeError := by rfl
    rw [hemp] at hj
    exact Except.noConfusion hj
  by_cases hbr : s = "[]"
  · subst hbr
    have hdec : json_loads "[]" = .ok (.list []) := by rfl
    rw [hdec] at hj
    injection hj with hj2
    injection hj2 with hj3
    subst hj3
    have hcalc : transform_hours_to_schedule (some "[]") = .ok ([] : List DaySchedule) := by
      decide
    rw [hcalc] at ht
    injection ht with hout
    refine ⟨[], rfl, ?_, List.nodup_nil⟩
    rw [← hout]
    rfl
  · have hcond : ¬(s = "" ∨ s = "[]") := by
      intro hc
      rcases hc with hc | hc
      · exact hsne hc
      · exact hbr hc
    simp only [transform_hours_to_schedule, if_neg hcond, hj] at ht
    unfold buildSchedule at ht
    cases hrun : runEntries entries [] with
    | error err =>
      rw [hrun] at ht
      exact Except.noConfusion ht
    | ok m =>
      rw [hrun] at ht
      injection ht with h2
      refine ⟨m, rfl, h2.symm, ?_⟩
      exact nodup_keys_runEntries entries [] m hrun (by simp [keys])

/-- Claim C9: days whose first time strings parse to structurally equal
intervals collapse into a single schedule entry: the entry's `times` is the
shared interval, its `days` holds the abbreviations of all such days sorted
Monday-first with unrecognised abbreviations last, and distinct entries of
the output never share the same parsed interval. -/
theorem grouping_by_interval (s : String) (entries : List PyVal) (out : List DaySchedule)
    (i j : Nat) (hi : i < entries.length) (hj2 : j < entries.length)
    (dvi tvi dvj tvj : PyVal) (tint : TimeInterval) (ai aj : String)
    (hjson : json_loads s = .ok (.list entries))
    (ht : transform_hours_to_schedule (some s) = .ok out)
    (_hij : i ≠ j)
    (hci : consult? entries[i] = some (dvi, tvi))
    (hpi : parse_time_range tvi = .ok (some tint))
    (hdi : dayAbbr dvi = .ok ai)
    (hcj : consult? entries[j] = some (dvj, tvj))
    (hpj : parse_time_range tvj = .ok (some tint))
    (hdj : dayAbbr dvj = .ok aj) :
    (∃ e, e ∈ out ∧ e.times = [tint] ∧ ai ∈ e.days ∧ aj ∈ e.days ∧
      e.days = sortDays (collect tint entries) ∧ List.Sorted dayLe e.days) ∧
    out.Pairwise (fun a b => a.times ≠ b.times) := by
  obtain ⟨m, hrun, hout, hnodup⟩ := transform_ok_build s entries out hjson ht
  have habbri : abbrFor tint entries[i] = some ai := by
    simp [abbrFor, hci, hpi, hdi]
  have habbrj : abbrFor tint entries[j] = some aj := by
    simp [abbrFor, hcj, hpj, hdj]
  have hmemi : ai ∈ collect tint entries :=
    List.mem_filterMap.mpr ⟨entries[i], List.getElem_mem hi, habbri⟩
  have hmemj : aj ∈ collect tint entries :=
    List.mem_filterMap.mpr ⟨entries[j], List.getElem_mem hj2, habbrj⟩
  have hcoll_ne : collect tint entries ≠ [] := List.ne_nil_of_mem hmemi
  have hlook := lookupS_runEntries entries [] m hrun tint
  have hnil : lookupS tint ([] : Sched) = none := rfl
  rw [hnil] at hlook
  simp only [Option.isNone_none, true_and, Option.getD_none, List.nil_append] at hlook
  rw [if_neg hcoll_ne] at hlook
  have hmem : (tint, collect tint entries) ∈ m := lookupS_some_mem _ _ _ hlook
  constructor
  · refine ⟨⟨sortDays (collect tint entries), [tint]⟩, ?_, rfl, ?_, ?_, rfl, ?_⟩
    · rw [hout, mem_finishSchedule_iff]
      exact ⟨(tint, collect tint entries), hmem, rfl⟩
    · exact (List.perm_insertionSort dayLe _).mem_iff.mpr hmemi
    · exact (List.perm_insertionSort dayLe _).mem_iff.mpr hmemj
    · exact List.sorted_insertionSort dayLe _
  · rw [hout]
    exact pairwise_times_finishSchedule m hnodup

/-- Witness for the C9 theorem: Sunday and Tuesday share the interval
18:00-00:00 and collapse into one entry with days sorted Monday-first. -/
theorem grouping_by_interval_witness :
    (∃ e, e ∈ [(⟨["mon"], [⟨"13:00", "14:00", none⟩]⟩ : DaySchedule),
          ⟨["tue", "sun"], [⟨"18:00", "00:00", none⟩]⟩] ∧
        e.times = [(⟨"18:00", "00:00", none⟩ : TimeInterval)] ∧
        "sun" ∈ e.days ∧ "tue" ∈ e.days ∧
        e.days = sortDays (collect ⟨"18:00", "00:00", none⟩
          [.dict [("day", .str "Sunday"), ("times", .list [.str "6 pm-12 am"])],
           .dict [("day", .str "Tuesday"), ("times", .list [.str "6 pm-12 am"])],
           .dict [("day", .str "Monday"), ("times", .list [.str "1-2 pm"])]]) ∧
        List.Sorted dayLe e.days) ∧
      List.Pairwise (fun a b => a.times ≠ b.times)
        [(⟨["mon"], [⟨"13:00", "14:00", none⟩]⟩ : DaySchedule),
         ⟨["tue", "sun"], [⟨"18:00", "00:00", none⟩]⟩] :=
  grouping_by_interval
    "[\x7b\"day\": \"Sunday\", \"times\": [\"6 pm-12 am\"]\x7d, \x7b\"day\": \"Tuesday\", \"times\": [\"6 pm-12 am\"]\x7d, \x7b\"day\": \"Monday\", \"times\": [\"1-2 pm\"]\x7d]"
    [.dict [("day", .str "Sunday"), ("times", .list [.str "6 pm-12 am"])],
     .dict [("day", .str "Tuesday"), ("times", .list [.str "6 pm-12 am"])],
     .dict [("day", .str "Monday"), ("times", .list [.str "1-2 pm"])]]
    [⟨["mon"], [⟨"13:00", "14:00", none⟩]⟩, ⟨["tue", "sun"], [⟨"18:00", "00:00", none⟩]⟩]
    0 1 (by decide) (by decide)
    (.str "Sunday") (.str "6 pm-12 am") (.str "Tuesday") (.str "6 pm-12 am")
    ⟨"18:00", "00:00", none⟩ "sun" "tue"
    (by rfl) (by decide) (by decide) (by rfl) (by decide) (by decide)
    (by rfl) (by decide) (by decide)

theorem mem_lookupS_of_nodup (m : Sched) (h : (keys m).Nodup) (t : TimeInterval)
    (ds : List String) (hm : (t, ds) ∈ m) : lookupS t m = some ds := by
  induction m with
  | nil => simp at hm
  | cons p m ih =>
    obtain ⟨t2, ds2⟩ := p
    have hcons : keys ((t2, ds2) :: m) = t2 :: keys m := rfl
    rw [hcons] at h
    have h1 : t2 ∉ keys m := (List.nodup_cons.mp h).1
    have h2 : (keys m).Nodup := (List.nodup_cons.mp h).2
    rcases List.mem_cons.mp hm with heq | htail
    · injection heq with ha hb
      rw [lookupS, if_pos ha.symm, hb]
    · by_cases heq2 : t2 = t
      · exfalso
        apply h1
        rw [heq2]
        unfold keys
        exact List.mem_map.mpr ⟨(t, ds), htail, rfl⟩
      · rw [lookupS, if_neg heq2]
        exact ih h2 htail

theorem slots_nonempty_appendDay (t : TimeInterval) (a : String) (m : Sched)
    (h : ∀ p ∈ m, p.2 ≠ ([] : List String)) :
    ∀ p ∈ appendDay t a m, p.2 ≠ ([] : List String) := by
  induction m with
  | nil =>
    intro p hp
    simp [appendDay] at hp
    rw [hp]
    simp
  | cons q m ih =>
    obtain ⟨t2, ds⟩ := q
    intro p hp
    by_cases h2 : t2 = t
    · simp only [appendDay, if_pos h2] at hp
      rcases List.mem_cons.mp hp with heq | htail
      · rw [heq]
        simp
      · exact h p (List.mem_cons_of_mem _ htail)
    · simp only [appendDay, if_neg h2] at hp
      rcases List.mem_cons.mp hp with heq | htail
      · rw [heq]
        exact h (t2, ds) (List.mem_cons_self _ _)
      · exact ih (fun q hq => h q (List.mem_cons_of_mem _ hq)) p htail

theorem slots_nonempty_stepEntry (m : Sched) (e : PyVal) (m2 : Sched)
    (hstep : stepEntry m e = .ok m2) (h : ∀ p ∈ m, p.2 ≠ ([] : List String)) :
    ∀ p ∈ m2, p.2 ≠ ([] : List String) := by
  cases hc : consult? e with
  | none =>
    simp only [stepEntry, hc] at hstep
    injection hstep with hh
    rw [← hh]
    exact h
  | some q =>
    obtain ⟨dv, tv⟩ := q
    cases hp : parse_time_range tv with
    | error err =>
      simp only [stepEntry, hc, hp] at hstep
      exact Except.noConfusion hstep
    | ok r =>
      cases r with
      | none =>
        simp only [stepEntry, hc, hp] at hstep
        injection hstep with hh
        rw [← hh]
        exact h
      | some ti =>
        cases hd : dayAbbr dv with
        | error err =>
          simp only [stepEntry, hc, hp, hd] at hstep
          exact Except.noConfusion hstep
        | ok ab =>
          simp only [stepEntry, hc, hp, hd] at hstep
          injection hstep with hh
          rw [← hh]
          exact slots_nonempty_appendDay ti ab m h

theorem slots_nonempty_runEntries (es : List PyVal) :
    ∀ m m2, runEntries es m = .ok m2 → (∀ p ∈ m, p.2 ≠ ([] : List String)) →
      ∀ p ∈ m2, p.2 ≠ ([] : List String) := by
  induction es with
  | nil =>
    intro m m2 hrun h
    injection hrun with hh
    rw [← hh]
    exact h
  | cons e es ih =>
    intro m m2 hrun h
    unfold runEntries at hrun
    cases hstep : stepEntry m e with
    | error err =>
      rw [hstep] at hrun
      exact Except.noConfusion hrun
    | ok m1 =>
      rw [hstep] at hrun
      exact ih m1 m2 hrun (slots_nonempty_stepEntry m e m1 hstep h)

theorem transform_ok_cases (inp : Option String) (out : List DaySchedule)
    (h : transform_hours_to_schedule inp = .ok out) :
    out = [] ∨ ∃ s entries, inp = some s ∧ json_loads s = .ok (.list entries) ∧
      buildSchedule entries = .ok out := by
  cases inp with
  | none =>
    left
    injection h with hh
    exact hh.symm
  | some s =>
    by_cases hc : s = "" ∨ s = "[]"
    · left
      simp only [transform_hours_to_schedule, if_pos hc] at h
      injection h with hh
      exact hh.symm
    · simp only [transform_hours_to_schedule, if_neg hc] at h
      cases hj : json_loads s with
      | error err =>
        left
        rw [hj] at h
        injection h with hh
        exact hh.symm
      | ok v =>
        rw [hj] at h
        cases v with
        | list entries => exact Or.inr ⟨s, entries, rfl, hj, h⟩
        | null => left; injection h with hh; exact hh.symm
        | bool b => left; injection h with hh; exact hh.symm
        | num q => left; injection h with hh; exact hh.symm
        | str s2 => left; injection h with hh; exact hh.symm
        | dict d => left; injection h with hh; exact hh.symm

theorem build_ok_cases (entries : List PyVal) (out : List DaySchedule)
    (hb : buildSchedule entries = .ok out) :
    ∃ m, runEntries entries [] = .ok m ∧ out = finishSchedule m := by
  unfold buildSchedule at hb
  cases hrun : runEntries entries [] with
  | error err =>
    rw [hrun] at hb
    exact Except.noConfusion hb
  | ok m =>
    rw [hrun] at hb
    injection hb with hh
    exact ⟨m, rfl, hh.symm⟩

theorem abbrFor_some_abbrForAny (t : TimeInterval) (e : PyVal) (a : String)
    (h : abbrFor t e = some a) : abbrForAny e = some a := by
  cases hc : consult? e with
  | none =>
    simp only [abbrFor, hc] at h
    exact Option.noConfusion h
  | some p =>
    obtain ⟨dv, tv⟩ := p
    cases hp : parse_time_range tv with
    | error err =>
      simp only [abbrFor, hc, hp] at h
      exact Option.noConfusion h
    | ok r =>
      cases r with
      | none =>
        simp only [abbrFor, hc, hp] at h
        exact Option.noConfusion h
      | some ti =>
        simp only [abbrFor, hc, hp] at h
        simp only [abbrForAny, hc, hp]
        by_cases hti : ti = t
        · rw [if_pos hti] at h
          exact h
        · rw [if_neg hti] at h
          exact Option.noConfusion h

theorem collect_sublist (t : TimeInterval) (entries : List PyVal) :
    (collect t entries).Sublist (entries.filterMap abbrForAny) := by
  induction entries with
  | nil => simp [collect]
  | cons e es ih =>
    unfold collect at ih ⊢
    cases habbr : abbrFor t e with
    | some a =>
      have hany : abbrForAny e = some a := abbrFor_some_abbrForAny t e a habbr
      simp only [List.filterMap_cons, habbr, hany]
      exact ih.cons₂ a
    | none =>
      simp only [List.filterMap_cons, habbr]
      cases hany : abbrForAny e with
      | none => exact ih
      | some b => exact ih.cons b

/-- Claim C3 counterexample: an hours list naming the same day twice with
identical times yields a schedule entry whose `days` list contains the
abbreviation twice — the source appends without deduplication. -/
theorem duplicate_days_counterexample :
    transform_hours_to_schedule
        (some "[\x7b\"day\": \"Monday\", \"times\": [\"5-6 pm\"]\x7d, \x7b\"day\": \"Monday\", \"times\": [\"5-6 pm\"]\x7d]") =
      .ok [⟨["mon", "mon"], [⟨"17:00", "18:00", none⟩]⟩] ∧
      ¬ (["mon", "mon"] : List String).Nodup := by
  refine ⟨by decide, by decide⟩

/-- Claim C3 (amended): every entry of a successfully built schedule has a
non-empty `days` list, and `days` has no duplicate abbreviations provided
the abbreviations contributed by the input days are pairwise distinct; the
source appends without deduplication, so a repeated day name (or two names
sharing an abbreviation) duplicates its abbreviation inside one entry. -/
theorem schedule_days_amended (inp : Option String) (out : List DaySchedule)
    (h : transform_hours_to_schedule inp = .ok out) :
    (∀ e ∈ out, e.days ≠ []) ∧
      (∀ entries out2, buildSchedule entries = .ok out2 →
        (entries.filterMap abbrForAny).Nodup → ∀ e ∈ out2, e.days.Nodup) := by
  constructor
  · intro e he
    rcases transform_ok_cases inp out h with hnil | ⟨s, entries, _, _, hb⟩
    · rw [hnil] at he
      simp at he
    · obtain ⟨m, hrun, hout⟩ := build_ok_cases entries out hb
      rw [hout] at he
      obtain ⟨p, hpm, hpe⟩ := (mem_finishSchedule_iff m e).mp he
      have hne : p.2 ≠ [] :=
        slots_nonempty_runEntries entries [] m hrun (by simp) p hpm
      rw [hpe]
      intro hcontra
      have hperm := List.perm_insertionSort dayLe p.2
      have : p.2 = [] := by
        have hlen := hperm.length_eq
        simp only [sortDays] at hcontra
        rw [hcontra] at hlen
        exact List.eq_nil_of_length_eq_zero hlen.symm
      exact hne this
  · intro entries out2 hb hnodup e he
    obtain ⟨m, hrun, hout⟩ := build_ok_cases entries out2 hb
    have hkeys : (keys m).Nodup := nodup_keys_runEntries entries [] m hrun (by simp [keys])
    rw [hout] at he
    obtain ⟨p, hpm, hpe⟩ := (mem_finishSchedule_iff m e).mp he
    obtain ⟨t, ds⟩ := p
    have hlook : lookupS t m = some ds := mem_lookupS_of_nodup m hkeys t ds hpm
    have hchar := lookupS_runEntries entries [] m hrun t
    have hnil : lookupS t ([] : Sched) = none := rfl
    rw [hnil] at hchar
    simp only [Option.isNone_none, true_and, Option.getD_none, List.nil_append] at hchar
    by_cases hcoll : collect t entries = []
    · rw [if_pos hcoll] at hchar
      rw [hchar] at hlook
      exact Option.noConfusion hlook
    · rw [if_neg hcoll] at hchar
      rw [hchar] at hlook
      injection hlook with hds
      have hsub : (collect t entries).Sublist (entries.filterMap abbrForAny) :=
        collect_sublist t entries
      have hnd : (collect t entries).Nodup := hnodup.sublist hsub
      rw [hpe]
      have hperm := List.perm_insertionSort dayLe ds
      simp only [sortDays]
      rw [hperm.nodup_iff]
      rw [← hds]
      exact hnd

/-- Witness for the amended C3 theorem at a concrete three-day input. -/
theorem schedule_days_amended_witness :
    (∀ e ∈ [(⟨["mon"], [⟨"13:00", "14:00", none⟩]⟩ : DaySchedule),
        ⟨["tue", "sun"], [⟨"18:00", "00:00", none⟩]⟩], e.days ≠ []) ∧
      (∀ entries out2, buildSchedule entries = .ok out2 →
        (entries.filterMap abbrForAny).Nodup → ∀ e ∈ out2, e.days.Nodup) :=
  schedule_days_amended
    (some "[\x7b\"day\": \"Sunday\", \"times\": [\"6 pm-12 am\"]\x7d, \x7b\"day\": \"Tuesday\", \"times\": [\"6 pm-12 am\"]\x7d, \x7b\"day\": \"Monday\", \"times\": [\"1-2 pm\"]\x7d]")
    [⟨["mon"], [⟨"13:00", "14:00", none⟩]⟩, ⟨["tue", "sun"], [⟨"18:00", "00:00", none⟩]⟩]
    (by decide)

theorem dictLookup_truncMap (d : List (String × PyVal)) (k : String) :
    dictLookup k (d.map fun kv => (kv.1, if kv.1 = "times" then truncTimes kv.2 else kv.2)) =
      if k = "times" then (dictLookup k d).map truncTimes else dictLookup k d := by
  induction d with
  | nil => by_cases hk : k = "times" <;> simp [dictLookup, hk]
  | cons kv d ih =>
    obtain ⟨k2, v⟩ := kv
    by_cases h2 : k2 = k
    · subst h2
      by_cases hk : k2 = "times"
      · simp [dictLookup, hk]
      · simp [dictLookup, hk]
    · simp only [List.map_cons, dictLookup, if_neg h2, ih]

theorem consult?_truncEntry (e : PyVal) : consult? (truncEntry e) = consult? e := by
  cases e with
  | dict d =>
    simp only [truncEntry, consult?]
    rw [dictLookup_truncMap d "day", dictLookup_truncMap d "times"]
    rw [if_neg (by decide : ¬ ("day" : String) = "times"), if_pos rfl]
    cases hday : dictLookup "day" d with
    | none => rfl
    | some dv =>
      cases htimes : dictLookup "times" d with
      | none => rfl
      | some tvv =>
        cases tvv with
        | list l =>
          cases l with
          | nil => rfl
          | cons t rest => rfl
        | null => rfl
        | bool b => rfl
        | num q => rfl
        | str s2 => rfl
        | dict d2 => rfl
  | null => rfl
  | bool b => rfl
  | num q => rfl
  | str s => rfl
  | list l => rfl

theorem stepEntry_truncEntry (m : Sched) (e : PyVal) :
    stepEntry m (truncEntry e) = stepEntry m e := by
  unfold stepEntry
  rw [consult?_truncEntry]

theorem runEntries_truncEntry (es : List PyVal) :
    ∀ m, runEntries (es.map truncEntry) m = runEntries es m := by
  induction es with
  | nil => intro m; rfl
  | cons e es ih =>
    intro m
    simp only [List.map_cons, runEntries, stepEntry_truncEntry]
    cases stepEntry m e with
    | error err => rfl
    | ok m1 => exact ih m1

theorem buildSchedule_truncEntry (entries : List PyVal) :
    buildSchedule (entries.map truncEntry) = buildSchedule entries := by
  unfold buildSchedule
  rw [runEntries_truncEntry]

/-- Claim C10: every entry of a successfully built schedule holds exactly
one interval in `times` (the slot is created as a singleton and never
extended), and truncating every input day's `times` list to its first
element leaves the built schedule unchanged — entries beyond the first are
never consulted. -/
theorem single_interval_per_entry (inp : Option String) (out : List DaySchedule)
    (h : transform_hours_to_schedule inp = .ok out) :
    (∀ e ∈ out, ∃ t, e.times = [t]) ∧
      (∀ entries, buildSchedule (entries.map truncEntry) = buildSchedule entries) := by
  constructor
  · intro e he
    rcases transform_ok_cases inp out h with hnil | ⟨s, entries, _, _, hb⟩
    · rw [hnil] at he
      simp at he
    · obtain ⟨m, _, hout⟩ := build_ok_cases entries out hb
      rw [hout] at he
      obtain ⟨p, _, hpe⟩ := (mem_finishSchedule_iff m e).mp he
      exact ⟨p.1, by rw [hpe]⟩
  · intro entries
    exact buildSchedule_truncEntry entries

/-- Witness for the C10 theorem: a day with two time strings contributes
only its first. -/
theorem single_interval_per_entry_witness :
    (∀ e ∈ [(⟨["mon"], [⟨"17:00", "18:00", none⟩]⟩ : DaySchedule)], ∃ t, e.times = [t]) ∧
      (∀ entries, buildSchedule (entries.map truncEntry) = buildSchedule entries) :=
  single_interval_per_entry
    (some "[\x7b\"day\": \"Monday\", \"times\": [\"5-6 pm\", \"7-8 pm\"]\x7d]")
    [⟨["mon"], [⟨"17:00", "18:00", none⟩]⟩]
    (by decide)

/-! ### Verification: error-handling contract -/

theorem dayInMapping_error (d : PyVal) (e : PyErr) (h : dayInMapping d = .error e) :
    e = .typeError := by
  cases d with
  | list l =>
    simp only [dayInMapping] at h
    injection h with hh
    exact hh.symm
  | dict d2 =>
    simp only [dayInMapping] at h
    injection h with hh
    exact hh.symm
  | null => exact Except.noConfusion h
  | bool b => exact Except.noConfusion h
  | num q => exact Except.noConfusion h
  | str s => exact Except.noConfusion h

theorem closedAbbrs_error (ds : List PyVal) :
    ∀ e, closedAbbrs ds = .error e → e = .typeError := by
  induction ds with
  | nil =>
    intro e h
    exact Except.noConfusion h
  | cons d ds ih =>
    intro e h
    unfold closedAbbrs at h
    cases hd : dayInMapping d with
    | error err =>
      rw [hd] at h
      injection h with hh
      rw [← hh]
      exact dayInMapping_error d err hd
    | ok b =>
      rw [hd] at h
      cases hrest : closedAbbrs ds with
      | error err2 =>
        rw [hrest] at h
        injection h with hh
        rw [← hh]
        exact ih err2 hrest
      | ok rest =>
        rw [hrest] at h
        exact Except.noConfusion h

theorem closedBody_error (s : String) (e : PyErr) (h : closedBody s = .error e) :
    e = .jsonDecodeError ∨ e = .typeError := by
  cases hj : json_loads s with
  | error err =>
    simp only [closedBody, hj] at h
    injection h with hh
    exact Or.inl hh.symm
  | ok v =>
    cases v with
    | list ds =>
      cases habbr : closedAbbrs ds with
      | error err2 =>
        simp only [closedBody, hj, habbr] at h
        injection h with hh
        exact Or.inr (hh ▸ closedAbbrs_error ds err2 habbr)
      | ok closed =>
        simp only [closedBody, hj, habbr] at h
        exact Except.noConfusion h
    | null =>
      simp only [closedBody, hj] at h
      exact Except.noConfusion h
    | bool b =>
      simp only [closedBody, hj] at h
      exact Except.noConfusion h
    | num q =>
      simp only [closedBody, hj] at h
      exact Except.noConfusion h
    | str s2 =>
      simp only [closedBody, hj] at h
      exact Except.noConfusion h
    | dict d =>
      simp only [closedBody, hj] at h
      exact Except.noConfusion h

theorem transform_closed_ok (inp : Option String) :
    ∃ r, transform_closed_on_to_opening_day inp = .ok r := by
  cases inp with
  | none => exact ⟨ALL_DAYS_ABBR, rfl⟩
  | some s =>
    by_cases hs : s = ""
    · exact ⟨ALL_DAYS_ABBR, by simp [transform_closed_on_to_opening_day, hs]⟩
    · simp only [transform_closed_on_to_opening_day, if_neg hs]
      by_cases ho : String.mk (pyStrip s.data) = "Open All Days"
      · exact ⟨ALL_DAYS_ABBR, by simp [ho]⟩
      · rw [if_neg ho]
        cases hb : closedBody (String.mk (pyStrip s.data)) with
        | ok r => exact ⟨r, rfl⟩
        | error e =>
          have hcaught : e = .jsonDecodeError ∨ e = .typeError := closedBody_error _ e hb
          exact ⟨ALL_DAYS_ABBR, by simp [hcaught]⟩

theorem pyFloatChk_error (v : PyVal) (e : PyErr) (h : pyFloatChk v = .error e) :
    e = .valueError ∨ e = .typeError := by
  cases v with
  | num q => exact Except.noConfusion h
  | bool b => exact Except.noConfusion h
  | str s =>
    simp only [pyFloatChk] at h
    by_cases hf : floatStrOk s = true
    · rw [if_pos hf] at h
      exact Except.noConfusion h
    · rw [if_neg hf] at h
      injection h with hh
      exact Or.inl hh.symm
  | null =>
    injection h with hh
    exact Or.inr hh.symm
  | list l =>
    injection h with hh
    exact Or.inr hh.symm
  | dict d =>
    injection h with hh
    exact Or.inr hh.symm

theorem coordsBody_error (s : String) (e : PyErr) (h : coordsBody s = .error e) :
    e = .jsonDecodeError ∨ e = .valueError ∨ e = .typeError := by
  cases hj : json_loads s with
  | error err =>
    simp only [coordsBody, hj] at h
    injection h with hh
    exact Or.inl hh.symm
  | ok v =>
    cases v with
    | dict d =>
      cases hla : dictLookup "latitude" d with
      | none =>
        simp only [coordsBody, hj, hla] at h
        exact Except.noConfusion h
      | some la =>
        cases hlo : dictLookup "longitude" d with
        | none =>
          simp only [coordsBody, hj, hla, hlo] at h
          exact Except.noConfusion h
        | some lo =>
          cases hf1 : pyFloatChk la with
          | error e1 =>
            simp only [coordsBody, hj, hla, hlo, hf1] at h
            injection h with hh
            rcases pyFloatChk_error la e1 hf1 with h1 | h1
            · exact Or.inr (Or.inl (hh ▸ h1))
            · exact Or.inr (Or.inr (hh ▸ h1))
          | ok u1 =>
            cases hf2 : pyFloatChk lo with
            | error e2 =>
              simp only [coordsBody, hj, hla, hlo, hf1, hf2] at h
              injection h with hh
              rcases pyFloatChk_error lo e2 hf2 with h1 | h1
              · exact Or.inr (Or.inl (hh ▸ h1))
              · exact Or.inr (Or.inr (hh ▸ h1))
            | ok u2 =>
              simp only [coordsBody, hj, hla, hlo, hf1, hf2] at h
              exact Except.noConfusion h
    | null =>
      simp only [coordsBody, hj] at h
      exact Except.noConfusion h
    | bool b =>
      simp only [coordsBody, hj] at h
      exact Except.noConfusion h
    | num q =>
      simp only [coordsBody, hj] at h
      exact Except.noConfusion h
    | str s2 =>
      simp only [coordsBody, hj] at h
      exact Except.noConfusion h
    | list l =>
      simp only [coordsBody, hj] at h
      exact Except.noConfusion h

theorem parse_coordinates_ok (inp : Option String) :
    ∃ r, parse_coordinates inp = .ok r := by
  cases inp with
  | none => exact ⟨none, rfl⟩
  | some s =>
    by_cases hs : s = ""
    · exact ⟨none, by simp [parse_coordinates, hs]⟩
    · simp only [parse_coordinates, if_neg hs]
      cases hb : coordsBody s with
      | ok r => exact ⟨r, rfl⟩
      | error e =>
        have hcaught := coordsBody_error s e hb
        rcases hcaught with h1 | h1 | h1 <;> exact ⟨none, by simp [h1]⟩

theorem stepEntry_ok (m : Sched) (e : PyVal) (hok : entryOK e = true) :
    ∃ m2, stepEntry m e = .ok m2 := by
  cases hc : consult? e with
  | none => exact ⟨m, by simp [stepEntry, hc]⟩
  | some p =>
    obtain ⟨dv, tv⟩ := p
    simp only [entryOK, hc, Bool.and_eq_true] at hok
    obtain ⟨hstr, hscal⟩ := hok
    obtain ⟨r, hr⟩ := ptr_scalar_ok tv hscal
    cases r with
    | none => exact ⟨m, by simp [stepEntry, hc, hr]⟩
    | some ti =>
      cases dv with
      | str s2 =>
        exact ⟨appendDay ti ((DAY_MAPPING.lookup s2).getD
          (String.mk ((s2.data.map Char.toLower).take 3))) m,
          by simp [stepEntry, hc, hr, dayAbbr]⟩
      | null => simp [isStrB] at hstr
      | bool b => simp [isStrB] at hstr
      | num q => simp [isStrB] at hstr
      | list l => simp [isStrB] at hstr
      | dict d => simp [isStrB] at hstr

theorem runEntries_ok (es : List PyVal) :
    ∀ m, es.all entryOK = true → ∃ m2, runEntries es m = .ok m2 := by
  induction es with
  | nil => intro m _; exact ⟨m, rfl⟩
  | cons e es ih =>
    intro m hall
    rw [List.all_cons, Bool.and_eq_true] at hall
    obtain ⟨m1, hm1⟩ := stepEntry_ok m e hall.1
    obtain ⟨m2, hm2⟩ := ih m1 hall.2
    exact ⟨m2, by simp [runEntries, hm1, hm2]⟩

theorem transform_hours_ok (inp : Option String) (hH : hoursOK inp = true) :
    ∃ r, transform_hours_to_schedule inp = .ok r := by
  cases inp with
  | none => exact ⟨[], rfl⟩
  | some s =>
    by_cases hc : s = "" ∨ s = "[]"
    · exact ⟨[], by simp [transform_hours_to_schedule, hc]⟩
    · simp only [transform_hours_to_schedule, if_neg hc]
      cases hj : json_loads s with
      | error err => exact ⟨[], rfl⟩
      | ok v =>
        cases v with
        | list entries =>
          simp only [hoursOK, hj] at hH
          obtain ⟨m, hm⟩ := runEntries_ok entries [] hH
          exact ⟨finishSchedule m, by simp [buildSchedule, hm]⟩
        | null => exact ⟨[], rfl⟩
        | bool b => exact ⟨[], rfl⟩
        | num q => exact ⟨[], rfl⟩
        | str s2 => exact ⟨[], rfl⟩
        | dict d => exact ⟨[], rfl⟩

/-- Claim C1 counterexample: `transform_hours_to_schedule` propagates an
`AttributeError` when a consulted entry's `day` field is not a string — the
`.lower()` in the `DAY_MAPPING.get` default is evaluated unconditionally
(source line 176) and no `except` covers the loop. -/
theorem hours_attribute_error_counterexample :
    transform_hours_to_schedule (some "[\x7b\"day\": 5, \"times\": [\"5-6 pm\"]\x7d]") =
      .error .attributeError := by
  decide

/-- Claim C1 (amended): `parse_time_range` never raises on scalar inputs;
`transform_closed_on_to_opening_day` and `parse_coordinates` never raise on
any string-or-absent input (their `except` clauses cover every exception
their `try` bodies can produce); `transform_hours_to_schedule` never raises
provided every consulted entry of the decoded hours list has a string `day`
value and a scalar first time value — with a non-string `day` it raises
`AttributeError`. -/
theorem core_parsers_no_raise_amended (v : PyVal) (inpH inpC inpK : Option String)
    (hv : scalarB v = true) (hH : hoursOK inpH = true) :
    (∃ r, parse_time_range v = .ok r) ∧
      (∃ r, transform_hours_to_schedule inpH = .ok r) ∧
      (∃ r, transform_closed_on_to_opening_day inpC = .ok r) ∧
      (∃ r, parse_coordinates inpK = .ok r) :=
  ⟨ptr_scalar_ok v hv, transform_hours_ok inpH hH,
    transform_closed_ok inpC, parse_coordinates_ok inpK⟩

/-- Witness for the amended C1 theorem at concrete inputs. -/
theorem core_parsers_no_raise_amended_witness :
    (scalarB (.str "6 pm-12 am") = true ∧
        hoursOK (some "[\x7b\"day\": \"Monday\", \"times\": [\"5-6 pm\"]\x7d]") = true) ∧
      ((∃ r, parse_time_range (.str "6 pm-12 am") = .ok r) ∧
        (∃ r, transform_hours_to_schedule
          (some "[\x7b\"day\": \"Monday\", \"times\": [\"5-6 pm\"]\x7d]") = .ok r) ∧
        (∃ r, transform_closed_on_to_opening_day (some "[\"Monday\"]") = .ok r) ∧
        (∃ r, parse_coordinates (some "\x7b\"latitude\":5.27,\"longitude\":115.24\x7d") = .ok r)) :=
  ⟨⟨by decide, by decide⟩,
    core_parsers_no_raise_amended (.str "6 pm-12 am")
      (some "[\x7b\"day\": \"Monday\", \"times\": [\"5-6 pm\"]\x7d]")
      (some "[\"Monday\"]")
      (some "\x7b\"latitude\":5.27,\"longitude\":115.24\x7d")
      (by decide) (by decide)⟩

/-! ### Verification: OpeningDayResolver -/

theorem closedAbbrs_spec (ds : List PyVal) (hh : ds.all hashableB = true) :
    closedAbbrs ds = .ok (ds.filterMap fun d =>
      match d with
      | .str n => DAY_MAPPING.lookup n
      | _ => none) := by
  induction ds with
  | nil => rfl
  | cons d ds ih =>
    rw [List.all_cons, Bool.and_eq_true] at hh
    have hrest := ih hh.2
    cases d with
    | str n =>
      cases hl : DAY_MAPPING.lookup n with
      | some ab =>
        simp only [closedAbbrs, dayInMapping, hrest, List.filterMap_cons, hl, abbrOf]
        simp [hl]
      | none =>
        simp only [closedAbbrs, dayInMapping, hrest, List.filterMap_cons, hl, abbrOf]
        simp [hl]
    | null => simp only [closedAbbrs, dayInMapping, hrest, List.filterMap_cons]; simp
    | bool b => simp only [closedAbbrs, dayInMapping, hrest, List.filterMap_cons]; simp
    | num q => simp only [closedAbbrs, dayInMapping, hrest, List.filterMap_cons]; simp
    | list l => simp [hashableB] at hh
    | dict d2 => simp [hashableB] at hh

/-- Claim C8: on an input whose stripped text JSON-decodes to a list of
hashable values, the result is the full week minus the listed days that
belong to the weekday vocabulary (entries outside the vocabulary dropped,
not abbreviated), falling back to the full week when nothing remains; in
particular `["Monday","Tuesday"]` yields the five remaining
abbreviations. -/
theorem opening_days_complement (s : String) (ds : List PyVal)
    (hs : s ≠ "")
    (ho : String.mk (pyStrip s.data) ≠ "Open All Days")
    (hj : json_loads (String.mk (pyStrip s.data)) = .ok (.list ds))
    (hh : ds.all hashableB = true) :
    transform_closed_on_to_opening_day (some s) = .ok (openingDaysSpec ds) ∧
      transform_closed_on_to_opening_day (some "[\"Monday\", \"Tuesday\"]") =
        .ok ["wed", "thu", "fri", "sat", "sun"] := by
  constructor
  · simp only [transform_closed_on_to_opening_day, if_neg hs, if_neg ho]
    simp only [closedBody, hj, closedAbbrs_spec ds hh]
    rfl
  · decide

/-- Witness for the C8 theorem at the input `["Monday", "Tuesday"]`. -/
theorem opening_days_complement_witness :
    transform_closed_on_to_opening_day (some "[\"Monday\", \"Tuesday\"]") =
        .ok (openingDaysSpec [.str "Monday", .str "Tuesday"]) ∧
      transform_closed_on_to_opening_day (some "[\"Monday\", \"Tuesday\"]") =
        .ok ["wed", "thu", "fri", "sat", "sun"] :=
  opening_days_complement "[\"Monday\", \"Tuesday\"]" [.str "Monday", .str "Tuesday"]
    (by decide) (by decide) (by rfl) (by decide)

end DataProc
